import Mathlib

/-!
Shallow embedding of the bounce-relay program (Rust sources: ingest.rs,
worker.rs, db.rs, main.rs) and verification of its specification.

Strings manipulated by the Rust code are modelled as `List Char`; bytes as
`List Nat` (each < 256); machine integers as `Nat`/`Int` with explicit
wrap-around only where overflow matters.  Timestamps are modelled as integers
measured in minutes (the worker's backoff arithmetic works in minutes).
-/

namespace BounceRelay

/-! ### Character-list utilities (embedding Rust `str` operations) -/

/-- Embedding of Rust `str::split(c)`: split a character list at every
occurrence of `c`.  Always returns at least one (possibly empty) segment. -/
def splitChar (c : Char) : List Char → List (List Char)
  | [] => [[]]
  | x :: xs =>
    if x = c then [] :: splitChar c xs
    else
      match splitChar c xs with
      | [] => [[x]]
      | y :: ys => (x :: y) :: ys

/-- Embedding of Rust `str::split_once(c)`: split at the first occurrence of
`c`, or `none` when `c` does not occur. -/
def splitOnceChar (c : Char) : List Char → Option (List Char × List Char)
  | [] => none
  | x :: xs =>
    if x = c then some ([], xs)
    else (splitOnceChar c xs).map (fun p => (x :: p.1, p.2))

/-- Whitespace test used by Rust `str::trim` (ASCII fragment). -/
def isWs (c : Char) : Bool := c.isWhitespace

/-- Embedding of Rust `str::trim`: drop whitespace at both ends. -/
def trimChars (l : List Char) : List Char :=
  ((l.dropWhile isWs).reverse.dropWhile isWs).reverse

/-- Embedding of Rust `str::to_lowercase` (per-character lowering). -/
def lowerChars (l : List Char) : List Char := l.map Char.toLower

/-- Last segment of `splitChar c l` — embedding of
`line.split(c).next_back().unwrap_or("")`. -/
def afterLastSep (c : Char) (l : List Char) : List Char :=
  (splitChar c l).getLastD []

/-- Embedding of `line.splitn(2, c).last().unwrap_or("")`: everything after
the first occurrence of `c`, or the whole string when `c` is absent. -/
def afterFirstSep (c : Char) (l : List Char) : List Char :=
  match splitOnceChar c l with
  | some p => p.2
  | none => l

/-- Embedding of Rust `lines()`: split on newline, dropping one trailing empty
segment and any trailing carriage return per line. -/
def stripCR (l : List Char) : List Char :=
  if l.getLast? = some '\r' then l.dropLast else l

def linesOf (l : List Char) : List (List Char) :=
  let parts := splitChar '\n' l
  (if parts.getLast? = some [] then parts.dropLast else parts).map stripCR

/-! ### DSN parsing (ingest.rs `parse_dsn`) -/

/-- The bounce record accumulated by `parse_dsn` (ingest.rs, struct
`BounceInfo`). -/
structure BounceInfo where
  recipient : List Char
  reason : List Char
  status : List Char
  action : List Char
deriving Repr, DecidableEq

/-- Defaults installed by `parse_dsn` before scanning the delivery-status
lines (ingest.rs lines 184-189). -/
def defaultBounceInfo : BounceInfo :=
  { recipient := "unknown".toList
    reason := "No reason found".toList
    status := "5.0.0".toList
    action := "failed".toList }

def isOriginalRecipientLine (line : List Char) : Bool :=
  "original-recipient:".toList.isPrefixOf (lowerChars line)

def isFinalRecipientLine (line : List Char) : Bool :=
  "final-recipient:".toList.isPrefixOf (lowerChars line)

def isDiagnosticCodeLine (line : List Char) : Bool :=
  "diagnostic-code:".toList.isPrefixOf (lowerChars line)

def isStatusLine (line : List Char) : Bool :=
  "status:".toList.isPrefixOf (lowerChars line)

def isActionLine (line : List Char) : Bool :=
  "action:".toList.isPrefixOf (lowerChars line)

/-- One iteration of the line loop in `parse_dsn` (ingest.rs lines 192-206). -/
def dsnStep (info : BounceInfo) (line : List Char) : BounceInfo :=
  if isOriginalRecipientLine line
      || (isFinalRecipientLine line && info.recipient = "unknown".toList) then
    { info with recipient := trimChars (afterLastSep ';' line) }
  else if isDiagnosticCodeLine line then
    { info with reason := trimChars (afterFirstSep ':' line) }
  else if isStatusLine line then
    { info with status := trimChars (afterLastSep ':' line) }
  else if isActionLine line then
    { info with action := trimChars (afterLastSep ':' line) }
  else
    info

/-- The full line loop of `parse_dsn` over the delivery-status text's lines. -/
def parseDsnLines (lines : List (List Char)) : BounceInfo :=
  lines.foldl dsnStep defaultBounceInfo

/-! ### Data model (db.rs: email_routes and webhook_queue tables) -/

/-- A row of the `email_routes` table (db.rs `EmailRoute`).  `user = none`
models the nullable `user` column (catch-all route). -/
structure Route where
  id : Nat
  domain : List Char
  user : Option (List Char)
  url : List Char
  secretToken : List Char
  isActive : Bool
deriving Repr, DecidableEq

/-- A row of the `webhook_queue` table (db.rs `WebhookQueue`).  `nextRetryAt`
and `createdAt` are timestamps in minutes; `attempts` is the unsigned counter
column (default 0). -/
structure QueueRow where
  id : Nat
  emailRouteId : Nat
  payload : List Char
  attempts : Nat
  nextRetryAt : Int
  lastError : Option (List Char)
  isExpired : Bool
  createdAt : Int
deriving Repr, DecidableEq

/-! ### MIME message abstraction for ingest

The external MIME parser is a black box; ingest only inspects the first `To`
address, and for each top-level part its content type, subtype and text. -/

structure MimePart where
  ctype : List Char
  subtype : List Char
  textContents : List Char
deriving Repr, DecidableEq

structure EmailMessage where
  toAddress : Option (List Char)
  parts : List MimePart
deriving Repr, DecidableEq

/-- Content-type test in `parse_dsn` (ingest.rs line 182):
`ct.c_type == "message" && ct.subtype() == "delivery-status"`. -/
def isDeliveryStatusPart (p : MimePart) : Bool :=
  p.ctype = "message".toList && p.subtype = "delivery-status".toList

/-- Embedding of `parse_dsn` (ingest.rs lines 178-215): find the first top-level
`message/delivery-status` part and run the line loop over its text; `none`
when no such part exists. -/
def parse_dsn (msg : EmailMessage) : Option BounceInfo :=
  match msg.parts.find? isDeliveryStatusPart with
  | some p => some (parseDsnLines (linesOf p.textContents))
  | none => none

/-! ### Ingest pipeline (ingest.rs `execute_ingest`) -/

/-- Target-address derivation (ingest.rs lines 44-55): `To` address defaults
to "unknown", split once on `'@'` (defaulting to `("", "")`), then strip the
local part at the first sub-address delimiter. -/
def targetUserDomain (delimiter : Char) (msg : EmailMessage) :
    List Char × List Char :=
  let targetAddress := msg.toAddress.getD "unknown".toList
  let p := (splitOnceChar '@' targetAddress).getD ([], [])
  let user :=
    match splitOnceChar delimiter p.1 with
    | some q => q.1
    | none => p.1
  (user, p.2)

/-- Route-matching predicate of the SQL query in `execute_ingest`
(ingest.rs lines 68-78): domain equality, user equality or NULL (catch-all),
and the route's enabled/active boolean column set. -/
def routeMatches (user domain : List Char) (r : Route) : Bool :=
  r.domain = domain && (r.user = some user || r.user = none) && r.isActive

/-- Result of one ingest run: the route ids for which a queue row was
inserted.  `Except` distinguishes the fatal-error paths (none are reachable
in the modelled fragment) from silent success. -/
def execute_ingest (delimiter : Char) (routes : List Route)
    (msg : EmailMessage) : Except (List Char) (List Nat) :=
  let ud := targetUserDomain delimiter msg
  match parse_dsn msg with
  | none => Except.ok []
  | some _ =>
    let matching := routes.filter (routeMatches ud.1 ud.2)
    Except.ok (matching.map Route.id)

/-! ### Worker: reschedule on failure (worker.rs `reschedule_job`) -/

/-- Largest value of the 64-bit signed integer type used by
`2_i64.pow(attempts as u32)` in worker.rs line 138. -/
def i64Max : Int := 2 ^ 63 - 1

/-- The exact mathematical value of the intermediate power
`2_i64.pow(attempts as u32)` (worker.rs line 138) before the cap is applied. -/
def pow2Exact (attempts : Nat) : Int := (2 : Int) ^ attempts

/-- Two's-complement wrap-around into the signed 64-bit range, modelling
Rust's non-overflow-checked (release-profile) `i64` arithmetic. -/
def wrapI64 (n : Int) : Int := (n + 2 ^ 63) % 2 ^ 64 - 2 ^ 63

/-- Backoff delay in minutes (worker.rs line 138):
`2_i64.pow(attempts).min(max_delay)`.  The power is computed in `i64`
arithmetic, so for exponents past 62 it wraps around (release profile)
before the cap is applied. -/
def backoffMinutes (attempts : Nat) (maxDelay : Int) : Int :=
  min (wrapI64 (pow2Exact attempts)) maxDelay

/-- Expiry decision of `reschedule_job` (worker.rs line 137):
`max_retries > 0 && attempts >= max_retries`, where `attempts` is the
already-incremented counter. -/
def expiryDecision (maxRetries : Int) (attempts : Nat) : Bool :=
  decide (maxRetries > 0 ∧ (attempts : Int) ≥ maxRetries)

/-- The field update performed by `reschedule_job` (worker.rs lines 136-173):
the UPDATE writes `attempts`, `is_expired`, `last_error` and `next_retry_at`
— all computed from the claimed job's attempt counter `jobAttempts` — into
the row, leaving its other columns unchanged.  The next retry time is
`now + min(2^attempts, max_delay)` minutes. -/
def rescheduleUpdate (maxRetries : Int) (maxDelay : Int) (now : Int)
    (err : List Char) (jobAttempts : Nat) (row : QueueRow) : QueueRow :=
  let attempts := jobAttempts + 1
  { row with
    attempts := attempts
    isExpired := expiryDecision maxRetries attempts
    lastError := some err
    nextRetryAt := now + backoffMinutes attempts maxDelay }

/-! ### Worker: job selection (worker.rs `find_jobs`)

`find_jobs` is a SQL query: join `webhook_queue` with `email_routes` on
`email_route_id = id`, filter `next_retry_at <= now`, `is_expired = false`,
`is_active = true`, order by `next_retry_at` ascending, limit.  The join is
the relational product restricted to matching ids; the ordering is modelled
by an insertion sort on the retry timestamp (SQL leaves tie order open). -/

abbrev ClaimedJob := QueueRow × Route

/-- Comparison used by `ORDER BY next_retry_at ASC`. -/
def retryLe (a b : ClaimedJob) : Prop := a.1.nextRetryAt ≤ b.1.nextRetryAt

instance : DecidableRel retryLe := fun a b =>
  inferInstanceAs (Decidable (a.1.nextRetryAt ≤ b.1.nextRetryAt))

instance : IsTotal ClaimedJob retryLe :=
  ⟨fun a b => Int.le_total a.1.nextRetryAt b.1.nextRetryAt⟩

instance : IsTrans ClaimedJob retryLe :=
  ⟨fun _ _ _ hab hbc => le_trans hab hbc⟩

/-- Rows produced by the join of `webhook_queue` and `email_routes`
(worker.rs lines 188-192). -/
def joinRows (entries : List QueueRow) (routes : List Route) :
    List ClaimedJob :=
  entries.flatMap fun e =>
    (routes.filter fun r => r.id = e.emailRouteId).map fun r => (e, r)

/-- The WHERE clause of `find_jobs` (worker.rs lines 193-195). -/
def readyFilter (now : Int) (j : ClaimedJob) : Bool :=
  j.1.nextRetryAt ≤ now && j.1.isExpired = false && j.2.isActive = true

/-- Embedding of `find_jobs` (worker.rs lines 176-204). -/
def find_jobs (entries : List QueueRow) (routes : List Route) (now : Int)
    (limit : Nat) : List ClaimedJob :=
  (List.insertionSort retryLe
    ((joinRows entries routes).filter (readyFilter now))).take limit

/-! ### Worker: one loop iteration (worker.rs `execute_worker` body) -/

/-- The queue-store state shared by ingest and worker. -/
structure Store where
  entries : List QueueRow
  routes : List Route
deriving Repr, DecidableEq

/-- Embedding of `delete_job` (worker.rs lines 116-127): delete the queue row with the
job's id. -/
def delete_job (st : Store) (jobId : Nat) : Store :=
  { st with entries := st.entries.filter fun e => e.id ≠ jobId }

/-- The UPDATE of `reschedule_job` applied to the store: fields are computed
from the claimed row `job` and written to the row with `job.id`
(worker.rs lines 158-172). -/
def reschedule_job (maxRetries maxDelay now : Int) (err : List Char)
    (st : Store) (job : QueueRow) : Store :=
  { st with
    entries := st.entries.map fun e =>
      if e.id = job.id then
        rescheduleUpdate maxRetries maxDelay now err job.attempts e
      else e }

/-- One iteration of the worker loop (worker.rs lines 53-74): claim ready
jobs, then for each claimed job delete it on delivery success or reschedule
it on failure.  `success` abstracts the outcome of the HTTP delivery of the
job with the given queue id. -/
def workerIteration (success : Nat → Bool) (maxRetries maxDelay now : Int)
    (limit : Nat) (err : List Char) (st : Store) : Store :=
  let jobs := find_jobs st.entries st.routes now limit
  jobs.foldl
    (fun acc job =>
      if success job.1.id then delete_job acc job.1.id
      else reschedule_job maxRetries maxDelay now err acc job.1)
    st

/-! ### SHA-512, HMAC and base64 (the signer of worker.rs `process_job`)

Bytes are `Nat` values below 256; 64-bit words are `Nat` values reduced
modulo `2^64`.  The round and initialisation constants are obtained as the
integer parts of `2^64` times the fractional parts of the cube/square roots
of the first primes, exactly as FIPS 180-4 defines them. -/

def w64 : Nat := 2 ^ 64

def rotr (n x : Nat) : Nat := ((x >>> n) ||| (x <<< (64 - n))) % w64

def bigSigma0 (x : Nat) : Nat := rotr 28 x ^^^ rotr 34 x ^^^ rotr 39 x
def bigSigma1 (x : Nat) : Nat := rotr 14 x ^^^ rotr 18 x ^^^ rotr 41 x
def smallSigma0 (x : Nat) : Nat := rotr 1 x ^^^ rotr 8 x ^^^ (x >>> 7)
def smallSigma1 (x : Nat) : Nat := rotr 19 x ^^^ rotr 61 x ^^^ (x >>> 6)

def chFn (x y z : Nat) : Nat := (x &&& y) ^^^ ((x ^^^ (w64 - 1)) &&& z)
def majFn (x y z : Nat) : Nat := (x &&& y) ^^^ (x &&& z) ^^^ (y &&& z)

/-- Binary search for the integer cube root (fuel-bounded; invariant
`lo^3 ≤ n < hi^3`). -/
def icbrtAux (n : Nat) : Nat → Nat → Nat → Nat
  | 0, lo, _ => lo
  | fuel + 1, lo, hi =>
    let mid := (lo + hi) / 2
    if mid = lo then lo
    else if mid ^ 3 ≤ n then icbrtAux n fuel mid hi
    else icbrtAux n fuel lo mid

def icbrt (n : Nat) : Nat := icbrtAux n 300 0 (n + 1)

/-- The first 80 primes. -/
def sha512Primes : List Nat :=
  [2, 3, 5, 7, 11, 13, 17, 19, 23, 29, 31, 37, 41, 43, 47, 53, 59, 61, 67,
   71, 73, 79, 83, 89, 97, 101, 103, 107, 109, 113, 127, 131, 137, 139, 149,
   151, 157, 163, 167, 173, 179, 181, 191, 193, 197, 199, 211, 223, 227, 229,
   233, 239, 241, 251, 257, 263, 269, 271, 277, 281, 283, 293, 307, 311, 313,
   317, 331, 337, 347, 349, 353, 359, 367, 373, 379, 383, 389, 397, 401, 409]

/-- SHA-512 round constants: first 64 bits of the fractional parts of the
cube roots of the first 80 primes. -/
def sha512K : List Nat := sha512Primes.map fun p => icbrt (p * 2 ^ 192) % w64

/-- SHA-512 initial hash: first 64 bits of the fractional parts of the
square roots of the first 8 primes. -/
def sha512H0 : List Nat :=
  (sha512Primes.take 8).map fun p => Nat.sqrt (p * 2 ^ 128) % w64

/-- Extend a 16-word block to the 80-word message schedule. -/
def extendSchedule : Nat → List Nat → List Nat
  | 0, w => w
  | fuel + 1, w =>
    let i := w.length
    let wi := (smallSigma1 (w.getD (i - 2) 0) + w.getD (i - 7) 0 +
               smallSigma0 (w.getD (i - 15) 0) + w.getD (i - 16) 0) % w64
    extendSchedule fuel (w ++ [wi])

def schedule (block : List Nat) : List Nat := extendSchedule 64 block

structure Sha512Regs where
  a : Nat
  b : Nat
  c : Nat
  d : Nat
  e : Nat
  f : Nat
  g : Nat
  h : Nat

def roundFn (r : Sha512Regs) (kw : Nat × Nat) : Sha512Regs :=
  let t1 := (r.h + bigSigma1 r.e + chFn r.e r.f r.g + kw.1 + kw.2) % w64
  let t2 := (bigSigma0 r.a + majFn r.a r.b r.c) % w64
  { a := (t1 + t2) % w64, b := r.a, c := r.b, d := r.c,
    e := (r.d + t1) % w64, f := r.e, g := r.f, h := r.g }

def compressBlock (hs : List Nat) (block : List Nat) : List Nat :=
  let ws := schedule block
  let r0 : Sha512Regs :=
    { a := hs.getD 0 0, b := hs.getD 1 0, c := hs.getD 2 0, d := hs.getD 3 0,
      e := hs.getD 4 0, f := hs.getD 5 0, g := hs.getD 6 0, h := hs.getD 7 0 }
  let r := (sha512K.zip ws).foldl roundFn r0
  [(hs.getD 0 0 + r.a) % w64, (hs.getD 1 0 + r.b) % w64,
   (hs.getD 2 0 + r.c) % w64, (hs.getD 3 0 + r.d) % w64,
   (hs.getD 4 0 + r.e) % w64, (hs.getD 5 0 + r.f) % w64,
   (hs.getD 6 0 + r.g) % w64, (hs.getD 7 0 + r.h) % w64]

/-- Big-endian byte representation of `n` in `numBytes` bytes. -/
def natToBytesBE (numBytes n : Nat) : List Nat :=
  (List.range numBytes).map fun i => (n >>> (8 * (numBytes - 1 - i))) % 256

/-- Pack bytes into big-endian 64-bit words (length assumed a multiple
of 8). -/
def bytesToWords : List Nat → List Nat
  | b0 :: b1 :: b2 :: b3 :: b4 :: b5 :: b6 :: b7 :: rest =>
    (((((((b0 <<< 8 ||| b1) <<< 8 ||| b2) <<< 8 ||| b3) <<< 8 ||| b4) <<< 8
        ||| b5) <<< 8 ||| b6) <<< 8 ||| b7) :: bytesToWords rest
  | _ => []

def chunk128 (l : List Nat) : List (List Nat) :=
  if h : l = [] then []
  else l.take 128 :: chunk128 (l.drop 128)
termination_by l.length
decreasing_by
  simp only [List.length_drop]
  exact Nat.sub_lt (List.length_pos.mpr h) (by norm_num)

/-- FIPS 180-4 padding: append `0x80`, zeros up to 112 mod 128, then the
message bit length in 16 big-endian bytes. -/
def padMessage (msg : List Nat) : List Nat :=
  let k := (240 - (msg.length + 1) % 128) % 128
  msg ++ 0x80 :: List.replicate k 0 ++ natToBytesBE 16 (8 * msg.length)

def sha512 (msg : List Nat) : List Nat :=
  let blocks := (chunk128 (padMessage msg)).map bytesToWords
  (blocks.foldl compressBlock sha512H0).flatMap (natToBytesBE 8)

/-- HMAC-SHA512 (RFC 2104 with a 128-byte block). -/
def hmacSha512 (key msg : List Nat) : List Nat :=
  let k0 := if key.length > 128 then sha512 key else key
  let k1 := k0 ++ List.replicate (128 - k0.length) 0
  let ipad := k1.map fun b => b ^^^ 0x36
  let opad := k1.map fun b => b ^^^ 0x5c
  sha512 (opad ++ sha512 (ipad ++ msg))

/-- Standard base64 alphabet (the crate's `BASE64_STANDARD`, with
padding). -/
def b64Char (n : Nat) : Char :=
  ("ABCDEFGHIJKLMNOPQRSTUVWXYZabcdefghijklmnopqrstuvwxyz0123456789+/".toList
    ).getD n '?'

def base64Encode : List Nat → List Char
  | [] => []
  | [b0] => [b64Char (b0 >>> 2), b64Char ((b0 % 4) <<< 4), '=', '=']
  | [b0, b1] =>
    [b64Char (b0 >>> 2), b64Char (((b0 % 4) <<< 4) + (b1 >>> 4)),
     b64Char ((b1 % 16) <<< 2), '=']
  | b0 :: b1 :: b2 :: rest =>
    b64Char (b0 >>> 2) :: b64Char (((b0 % 4) <<< 4) + (b1 >>> 4)) ::
    b64Char (((b1 % 16) <<< 2) + (b2 >>> 6)) :: b64Char (b2 % 64) ::
    base64Encode rest

/-- UTF-8 encoding of one character. -/
def utf8Char (c : Char) : List Nat :=
  let n := c.toNat
  if n < 0x80 then [n]
  else if n < 0x800 then [0xC0 + n / 64, 0x80 + n % 64]
  else if n < 0x10000 then
    [0xE0 + n / 4096, 0x80 + (n / 64) % 64, 0x80 + n % 64]
  else
    [0xF0 + n / 262144, 0x80 + (n / 4096) % 64, 0x80 + (n / 64) % 64,
     0x80 + n % 64]

/-- Embedding of `str::as_bytes`: the UTF-8 bytes of a string. -/
def strBytes (l : List Char) : List Nat := l.flatMap utf8Char

/-! ### The signer (worker.rs `process_job`, lines 82-95) -/

/-- The signed message `timestamp.payload` built by worker.rs line 88. -/
def signatureMessage (timestamp payload : List Char) : List Char :=
  timestamp ++ '.' :: payload

/-- The `X-Signature` header value computed by `process_job`
(worker.rs lines 87-89, 95): base64 of the HMAC-SHA512 of
`timestamp.payload` keyed with the route's secret token. -/
def xSignature (secretToken timestamp payload : List Char) : List Char :=
  base64Encode
    (hmacSha512 (strBytes secretToken)
      (strBytes (signatureMessage timestamp payload)))

/-- Modelled from the spec: subscriber-side signature verification (spec
sections 4.3 and 6; the verifying endpoint is not part of this repository).
The subscriber recomputes `base64(HMAC-SHA512(secret,
"timestamp.payload"))` from the received `X-Timestamp` header and raw body
and compares it against the received `X-Signature` header. -/
def subscriberVerify (secret timestamp body signatureHeader : List Char) :
    Bool :=
  base64Encode (hmacSha512 (strBytes secret)
    (strBytes (timestamp ++ '.' :: body))) == signatureHeader

/-! ### Iterated delivery failures

The evolution of one queue row under repeated failed deliveries: each failure
re-reads the row and applies `reschedule_job`'s update to it. -/

def iterateFailures (maxRetries maxDelay now : Int) (err : List Char) :
    Nat → QueueRow → QueueRow
  | 0, row => row
  | n + 1, row =>
    iterateFailures maxRetries maxDelay now err n
      (rescheduleUpdate maxRetries maxDelay now err row.attempts row)

/-! ### Concrete sample data (used to instantiate the theorems) -/

def sampleRow : QueueRow :=
  ⟨10, 1, "p".toList, 2, 0, none, false, 0⟩

def routeCatchAll : Route :=
  ⟨1, "example.com".toList, none, "https://a.example/hook".toList,
   "s1".toList, true⟩

def routeSpecific : Route :=
  ⟨2, "example.com".toList, some "bob".toList,
   "https://b.example/hook".toList, "s2".toList, true⟩

def dsnSamplePart : MimePart :=
  ⟨"message".toList, "delivery-status".toList,
   ("Final-Recipient: rfc822; bob@example.com\nStatus: 5.1.1\n" ++
    "Action: failed\nDiagnostic-Code: smtp; 550 no such user\n").toList⟩

def plainSamplePart : MimePart :=
  ⟨"text".toList, "plain".toList, "hello".toList⟩

def bounceMsgToBob : EmailMessage :=
  ⟨some "bob+promo@example.com".toList, [dsnSamplePart]⟩

def bounceMsgToCarol : EmailMessage :=
  ⟨some "carol@example.com".toList, [dsnSamplePart]⟩

def nonBounceMsg : EmailMessage :=
  ⟨some "bob@example.com".toList, [plainSamplePart]⟩

def rowReadyA : QueueRow := ⟨10, 1, "p".toList, 0, 5, none, false, 0⟩
def rowReadyB : QueueRow := ⟨11, 2, "p".toList, 0, 3, none, false, 0⟩
def rowExpired : QueueRow := ⟨12, 1, "p".toList, 7, 3, none, true, 0⟩

def sampleStore : Store :=
  ⟨[rowReadyA, rowReadyB, rowExpired], [routeCatchAll, routeSpecific]⟩

/-! ## Theorems -/

/-! ### Helper lemmas -/

theorem splitChar_not_mem {c : Char} {l : List Char} (h : c ∉ l) :
    splitChar c l = [l] := by
  induction l with
  | nil => rfl
  | cons x xs ih =>
    rw [splitChar, if_neg (fun hx : x = c => h (hx ▸ List.mem_cons_self x xs)),
      ih (fun hm => h (List.mem_cons_of_mem x hm))]

theorem afterLastSep_not_mem {c : Char} {l : List Char} (h : c ∉ l) :
    afterLastSep c l = l := by
  rw [afterLastSep, splitChar_not_mem h]
  rfl


/-- Below exponent 63 the `i64` power does not wrap, so the machine value
agrees with the exact power. -/
theorem wrapI64_pow2 {a : Nat} (h : a ≤ 62) :
    wrapI64 ((2 : Int) ^ a) = (2 : Int) ^ a := by
  have h1 : (2 : Int) ^ a ≤ 2 ^ 62 := pow_le_pow_right₀ (by norm_num) h
  have h2 : (0 : Int) ≤ 2 ^ a := by positivity
  have h3 : (2 : Int) ^ 62 + 2 ^ 63 < 2 ^ 64 := by norm_num
  simp only [wrapI64]
  rw [Int.emod_eq_of_lt (by linarith) (by linarith)]
  ring

/-- Claim C1 counterexample: at an incremented attempts count of 63 —
reachable under repeated failures with expiry disabled — the `i64` power
wraps to `-2^63`, so the scheduled delay is `-2^63` minutes rather than the
claimed `min(2^63, 30) = 30`, refuting the universal delay formula. -/
theorem C1_counterexample :
    backoffMinutes 63 30 ≠ min (pow2Exact 63) 30 ∧
    backoffMinutes 63 30 = -(2 ^ 63) ∧
    min (pow2Exact 63) 30 = 30 ∧
    (rescheduleUpdate 0 30 0 [] 62 sampleRow).nextRetryAt
      = 0 + backoffMinutes 63 30 := by
  refine ⟨by decide, by decide, by decide, rfl⟩

/-- Claim C1 (amended): on every failed delivery attempt whose incremented
attempts count stays at most 62 (so the `i64` power does not overflow),
`reschedule_job` increments the attempts counter by one and schedules the
next attempt at `now` plus `min(2^attempts, max_delay)` minutes (with
`attempts` the incremented counter); for attempts in `[1, 10]` and a cap of
30 the delay equals `min(2^attempts, 30)` and is monotonically
non-decreasing in attempts. -/
theorem C1_backoff (maxRetries maxDelay now : Int) (err : List Char)
    (jobAttempts : Nat) (row : QueueRow) (hbound : jobAttempts + 1 ≤ 62) :
    (rescheduleUpdate maxRetries maxDelay now err jobAttempts row).attempts
        = jobAttempts + 1 ∧
    (rescheduleUpdate maxRetries maxDelay now err jobAttempts row).nextRetryAt
        = now + min ((2 : Int) ^ (jobAttempts + 1)) maxDelay ∧
    (∀ a b : Nat, 1 ≤ a → a ≤ b → b ≤ 10 →
      backoffMinutes a 30 = min ((2 : Int) ^ a) 30 ∧
      backoffMinutes a 30 ≤ backoffMinutes b 30) := by
  refine ⟨rfl, ?_, fun a b _ hab hb => ?_⟩
  · simp only [rescheduleUpdate, backoffMinutes, pow2Exact,
      wrapI64_pow2 hbound]
  · have hwa : wrapI64 ((2 : Int) ^ a) = (2 : Int) ^ a :=
      wrapI64_pow2 (by omega)
    have hwb : wrapI64 ((2 : Int) ^ b) = (2 : Int) ^ b :=
      wrapI64_pow2 (by omega)
    refine ⟨by simp only [backoffMinutes, pow2Exact, hwa], ?_⟩
    simp only [backoffMinutes, pow2Exact, hwa, hwb]
    exact min_le_min (pow_le_pow_right₀ (by norm_num) hab) le_rfl

/-- Witness for the amended C1 at a concrete failed attempt
(attempts 2 -> 3, cap 1800, now 1000, within the non-overflowing range). -/
theorem C1_backoff_witness :
    (rescheduleUpdate 50 1800 1000 [] 2 sampleRow).attempts = 3 ∧
    (rescheduleUpdate 50 1800 1000 [] 2 sampleRow).nextRetryAt = 1008 ∧
    backoffMinutes 3 30 ≤ backoffMinutes 5 30 := by
  obtain ⟨h1, h2, h3⟩ := C1_backoff 50 1800 1000 [] 2 sampleRow (by norm_num)
  refine ⟨h1, ?_, (h3 3 5 (by norm_num) (by norm_num) (by norm_num)).2⟩
  rw [h2]; decide

/-- Claim C2: after a failed attempt the entry is expired iff
`max_retries > 0` and the incremented attempts count reaches `max_retries`;
a `max_retries` of zero or negative never sets the flag. -/
theorem C2_expiry (maxRetries maxDelay now : Int) (err : List Char)
    (jobAttempts : Nat) (row : QueueRow) :
    ((rescheduleUpdate maxRetries maxDelay now err jobAttempts row).isExpired = true
        ↔ maxRetries > 0 ∧ ((jobAttempts + 1 : Nat) : Int) ≥ maxRetries) ∧
    (maxRetries ≤ 0 →
      (rescheduleUpdate maxRetries maxDelay now err jobAttempts row).isExpired
          = false) := by
  constructor
  · simp [rescheduleUpdate, expiryDecision]
  · intro h
    simp [rescheduleUpdate, expiryDecision]
    omega

/-- Witness for C2: a million attempts with `max_retries = 0` never expire;
three attempts with `max_retries = 3` do. -/
theorem C2_expiry_witness :
    (rescheduleUpdate 0 1800 0 [] 1000000 sampleRow).isExpired = false ∧
    (rescheduleUpdate 3 1800 0 [] 2 sampleRow).isExpired = true := by
  refine ⟨(C2_expiry 0 1800 0 [] 1000000 sampleRow).2 (le_refl 0), ?_⟩
  exact (C2_expiry 3 1800 0 [] 2 sampleRow).1.mpr (by norm_num)

/-- With expiry disabled, `n` iterated failures add `n` to the attempts
counter and never set the expired flag. -/
theorem iterateFailures_spec (maxRetries maxDelay now : Int) (err : List Char)
    (hmr : maxRetries ≤ 0) :
    ∀ (n : Nat) (row : QueueRow), row.isExpired = false →
      (iterateFailures maxRetries maxDelay now err n row).attempts
          = row.attempts + n ∧
      (iterateFailures maxRetries maxDelay now err n row).isExpired = false := by
  intro n
  induction n with
  | zero => intro row h; exact ⟨rfl, h⟩
  | succ k ih =>
    intro row h
    have hstep :
        (rescheduleUpdate maxRetries maxDelay now err row.attempts row).isExpired
          = false := by
      simp [rescheduleUpdate, expiryDecision]
      omega
    obtain ⟨h1, h2⟩ := ih (rescheduleUpdate maxRetries maxDelay now err row.attempts row) hstep
    refine ⟨?_, h2⟩
    rw [iterateFailures, h1]
    simp [rescheduleUpdate]
    omega

/-- Claim C9: the backoff delay computes the full power `2^attempts` in
signed 64-bit arithmetic before the cap is applied (the cap acts on the
wrapped machine value), and for every incremented attempts count of at
least 63 the exact intermediate value exceeds the `i64` range; with
`max_retries <= 0` the attempts counter grows without bound under repeated
failures, so the overflowing computation is reached. -/
theorem C9_overflow (maxRetries maxDelay now : Int) (err : List Char)
    (row : QueueRow) (hmr : maxRetries ≤ 0) (hexp : row.isExpired = false) :
    (∀ n : Nat,
      (iterateFailures maxRetries maxDelay now err n row).attempts
          = row.attempts + n ∧
      (iterateFailures maxRetries maxDelay now err n row).isExpired = false) ∧
    (∀ a : Nat, 63 ≤ a → pow2Exact a > i64Max) ∧
    (∀ (a : Nat) (cap : Int),
      backoffMinutes a cap = min (wrapI64 (pow2Exact a)) cap) := by
  refine ⟨fun n => iterateFailures_spec maxRetries maxDelay now err hmr n row hexp,
    fun a ha => ?_, fun a cap => rfl⟩
  have h1 : (2 : Int) ^ 63 ≤ 2 ^ a := pow_le_pow_right₀ (by norm_num) ha
  simp only [pow2Exact, i64Max]
  linarith

/-- Witness for C9: sixty-three failures starting from `sampleRow` reach
attempt count 65 without expiring, and `2^63` already exceeds the `i64`
range. -/
theorem C9_overflow_witness :
    (iterateFailures 0 1800 0 [] 63 sampleRow).attempts = 65 ∧
    (iterateFailures 0 1800 0 [] 63 sampleRow).isExpired = false ∧
    pow2Exact 63 > i64Max := by
  obtain ⟨h1, h2, h3⟩ := C9_overflow 0 1800 0 [] sampleRow (by norm_num) rfl
  obtain ⟨ha, hb⟩ := h1 63
  exact ⟨by rw [ha]; decide, hb, h2 63 (by norm_num)⟩

/-- Claim C6: the outbound `X-Signature` header equals the base64 encoding
of the HMAC-SHA512 digest of `timestamp + "." + payload` keyed by the
route secret, and a subscriber recomputing the HMAC over the exact
`(timestamp, payload)` pair always reproduces the signature. -/
theorem C6_signature (secret timestamp payload : List Char) :
    xSignature secret timestamp payload =
      base64Encode (hmacSha512 (strBytes secret)
        (strBytes (timestamp ++ '.' :: payload))) ∧
    subscriberVerify secret timestamp payload
      (xSignature secret timestamp payload) = true := by
  refine ⟨rfl, ?_⟩
  simp [subscriberVerify, xSignature, signatureMessage]

/-- Claim C10: an `Original-Recipient` or `Final-Recipient` line without a
semicolon yields the entire trimmed line, field name included, as the
parsed recipient. -/
theorem C10_no_semicolon (info : BounceInfo) (line : List Char)
    (hsemi : ';' ∉ line)
    (hline : isOriginalRecipientLine line = true ∨
      (isFinalRecipientLine line = true ∧ info.recipient = "unknown".toList)) :
    (dsnStep info line).recipient = trimChars line := by
  have hcond : (isOriginalRecipientLine line
      || (isFinalRecipientLine line && info.recipient = "unknown".toList)) = true := by
    rcases hline with h | ⟨h1, h2⟩
    · simp [h]
    · simp [h1, h2]
  simp only [dsnStep, hcond, if_true]
  rw [afterLastSep_not_mem hsemi]

/-- Witness for C10 on the line `Final-Recipient: bob@example.com`. -/
theorem C10_no_semicolon_witness :
    (';' ∉ "Final-Recipient: bob@example.com".toList) ∧
    (dsnStep defaultBounceInfo "Final-Recipient: bob@example.com".toList).recipient
      = "Final-Recipient: bob@example.com".toList := by
  have h := C10_no_semicolon defaultBounceInfo "Final-Recipient: bob@example.com".toList
    (by decide) (Or.inr ⟨by decide, rfl⟩)
  exact ⟨by decide, by rw [h]; decide⟩


/-- Claim C4 counterexample: a delivery-status text whose Original-Recipient
line parses to the literal value "unknown" followed by a Final-Recipient
line yields the Final-Recipient value, so the parsed recipient does not
equal the Original-Recipient value as the claim states. -/
theorem C4_counterexample :
    (parseDsnLines ["Original-Recipient: rfc822; unknown".toList,
        "Final-Recipient: rfc822; bob@example.org".toList]).recipient
      = "bob@example.org".toList ∧
    trimChars (afterLastSep ';' "Original-Recipient: rfc822; unknown".toList)
      = "unknown".toList ∧
    isOriginalRecipientLine "Original-Recipient: rfc822; unknown".toList = true ∧
    isFinalRecipientLine "Final-Recipient: rfc822; bob@example.org".toList = true ∧
    "bob@example.org".toList ≠ "unknown".toList := by
  decide

/-- A non-Original-Recipient line never changes a recipient that is no
longer "unknown". -/
theorem dsnStep_recipient_of_not_orig {info : BounceInfo} {l : List Char}
    (h1 : isOriginalRecipientLine l = false)
    (h2 : info.recipient ≠ "unknown".toList) :
    (dsnStep info l).recipient = info.recipient := by
  have hc : (isOriginalRecipientLine l
      || (isFinalRecipientLine l && info.recipient = "unknown".toList)) = false := by
    simp [h1]
    intro _
    exact h2
  have h2l : ¬ info.recipient = ['u', 'n', 'k', 'n', 'o', 'w', 'n'] := h2
  cases hd : isDiagnosticCodeLine l <;> cases hs : isStatusLine l <;>
    cases ha : isActionLine l <;> simp [dsnStep, h1, h2l, hd, hs, ha]

/-- Once the recipient differs from "unknown", lines containing no
Original-Recipient field leave it untouched. -/
theorem foldl_recipient_stable :
    ∀ (post : List (List Char)) (info : BounceInfo),
      info.recipient ≠ "unknown".toList →
      (∀ l ∈ post, isOriginalRecipientLine l = false) →
      (post.foldl dsnStep info).recipient = info.recipient := by
  intro post
  induction post with
  | nil => intro info h _; rfl
  | cons l ls ih =>
    intro info h hall
    rw [List.foldl_cons]
    have hstep := dsnStep_recipient_of_not_orig (hall l (List.mem_cons_self l ls)) h
    rw [ih _ (by rw [hstep]; exact h)
      (fun x hx => hall x (List.mem_cons_of_mem l hx)), hstep]

/-- Claim C4 (amended): for every delivery-status text containing both an
Original-Recipient and a Final-Recipient line, the parsed recipient equals
the value of the last Original-Recipient line (the part after the last
semicolon, trimmed) provided that value is not the literal string
"unknown" (when it is, a later Final-Recipient line may overwrite it). -/
theorem C4_amended (pre post : List (List Char)) (orig : List Char)
    (horig : isOriginalRecipientLine orig = true)
    (hlast : ∀ l ∈ post, isOriginalRecipientLine l = false)
    (hfinal : ∃ l ∈ pre ++ orig :: post, isFinalRecipientLine l = true)
    (hval : trimChars (afterLastSep ';' orig) ≠ "unknown".toList) :
    (parseDsnLines (pre ++ orig :: post)).recipient
      = trimChars (afterLastSep ';' orig) := by
  unfold parseDsnLines
  rw [List.foldl_append, List.foldl_cons]
  have hstep : (dsnStep (pre.foldl dsnStep defaultBounceInfo) orig).recipient
      = trimChars (afterLastSep ';' orig) := by
    simp [dsnStep, horig]
  rw [foldl_recipient_stable post _ (by rw [hstep]; exact hval) hlast, hstep]

/-- Witness for the amended C4: Final-Recipient first, Original-Recipient
second — the Original-Recipient value wins. -/
theorem C4_amended_witness :
    (parseDsnLines ["Final-Recipient: rfc822; carol@x.org".toList,
        "Original-Recipient: rfc822; alice@x.org".toList]).recipient
      = "alice@x.org".toList := by
  have h := C4_amended ["Final-Recipient: rfc822; carol@x.org".toList] []
    "Original-Recipient: rfc822; alice@x.org".toList (by decide)
    (by intro l hl; cases hl)
    ⟨"Final-Recipient: rfc822; carol@x.org".toList, by simp, by decide⟩
    (by decide)
  exact h.trans (by decide)

/-- Claim C7: a message none of whose parts is a `message/delivery-status`
part causes no queue write and ingestion ends successfully. -/
theorem C7_non_bounce (delimiter : Char) (routes : List Route)
    (msg : EmailMessage)
    (h : ∀ p ∈ msg.parts, isDeliveryStatusPart p = false) :
    execute_ingest delimiter routes msg = Except.ok [] := by
  have hd : parse_dsn msg = none := by
    unfold parse_dsn
    rw [List.find?_eq_none.mpr (fun p hp => by simp [h p hp])]
  simp only [execute_ingest, hd]

/-- Witness for C7 on a plain-text message with active routes present. -/
theorem C7_non_bounce_witness :
    execute_ingest '+' [routeCatchAll, routeSpecific] nonBounceMsg
      = Except.ok [] :=
  C7_non_bounce '+' [routeCatchAll, routeSpecific] nonBounceMsg (by decide)


/-- Lemma: `split_once` misses when the separator is absent. -/
theorem splitOnceChar_not_mem {c : Char} {l : List Char} (h : c ∉ l) :
    splitOnceChar c l = none := by
  induction l with
  | nil => rfl
  | cons x xs ih =>
    rw [splitOnceChar,
      if_neg (fun hx : x = c => h (hx ▸ List.mem_cons_self x xs)),
      ih (fun hm => h (List.mem_cons_of_mem x hm))]
    rfl

/-- Lemma: `split_once` splits at the first occurrence of the separator. -/
theorem splitOnceChar_append {c : Char} {pre post : List Char} (h : c ∉ pre) :
    splitOnceChar c (pre ++ c :: post) = some (pre, post) := by
  induction pre with
  | nil => simp [splitOnceChar]
  | cons x xs ih =>
    rw [List.cons_append, splitOnceChar,
      if_neg (fun hx : x = c => h (hx ▸ List.mem_cons_self x xs)),
      ih (fun hm => h (List.mem_cons_of_mem x hm))]
    rfl

/-- Claim C3: the target local-part and domain come from splitting the `To`
address on `'@'` and stripping the local part at the first delimiter;
ingest enqueues exactly one entry per route whose domain matches, whose
active flag is set, and whose local part equals the stripped local part or
is absent (catch-all); a domain with one catch-all and one specific route
yields two entries for the specific user and one for any other user, and
zero matching routes enqueues nothing and exits successfully. -/
theorem C3_route_matching (delim : Char) (routes : List Route)
    (msg : EmailMessage) (info : BounceInfo)
    (hdsn : parse_dsn msg = some info) :
    (execute_ingest delim routes msg = Except.ok
      ((routes.filter (routeMatches (targetUserDomain delim msg).1
        (targetUserDomain delim msg).2)).map Route.id)) ∧
    (∀ localPart rest : List Char,
      msg.toAddress = some (localPart ++ '@' :: rest) → '@' ∉ localPart →
      delim ∉ localPart →
      targetUserDomain delim msg = (localPart, rest)) ∧
    (∀ base tag rest : List Char,
      msg.toAddress = some (base ++ delim :: tag ++ '@' :: rest) →
      delim ≠ '@' → '@' ∉ base → '@' ∉ tag → delim ∉ base →
      targetUserDomain delim msg = (base, rest)) ∧
    (∀ (u d o : List Char) (catchR specR : Route),
      catchR.domain = d → catchR.user = none → catchR.isActive = true →
      specR.domain = d → specR.user = some u → specR.isActive = true → o ≠ u →
      ([catchR, specR].filter (routeMatches u d)).length = 2 ∧
      ([catchR, specR].filter (routeMatches o d)).length = 1) ∧
    (routes.filter (routeMatches (targetUserDomain delim msg).1
        (targetUserDomain delim msg).2) = [] →
      execute_ingest delim routes msg = Except.ok []) := by
  have hmain : execute_ingest delim routes msg = Except.ok
      ((routes.filter (routeMatches (targetUserDomain delim msg).1
        (targetUserDomain delim msg).2)).map Route.id) := by
    simp only [execute_ingest, hdsn]
  refine ⟨hmain, ?_, ?_, ?_, ?_⟩
  · intro localPart rest haddr h1 h2
    simp only [targetUserDomain, haddr, Option.getD_some,
      splitOnceChar_append h1, Option.getD_some, splitOnceChar_not_mem h2]
  · intro base tag rest haddr hda h1 h2 h3
    have hpre : '@' ∉ base ++ delim :: tag := by
      intro hm
      rcases List.mem_append.mp hm with hb | hdt
      · exact h1 hb
      · rcases List.mem_cons.mp hdt with hd | ht
        · exact hda hd.symm
        · exact h2 ht
    have haddr' : msg.toAddress = some ((base ++ delim :: tag) ++ '@' :: rest) := by
      simp [haddr]
    simp only [targetUserDomain, haddr', Option.getD_some,
      splitOnceChar_append hpre, splitOnceChar_append h3]
  · intro u d o catchR specR hcd hcu hca hsd hsu hsa ho
    constructor
    · simp [routeMatches, hcd, hcu, hca, hsd, hsu, hsa]
    · simp [routeMatches, hcd, hcu, hca, hsd, hsu, hsa, Ne.symm ho]
  · intro hempty
    rw [hmain, hempty]
    rfl

/-- Witness for C3: a bounce to `bob+promo@example.com` against a catch-all
route (id 1) and a `bob` route (id 2) enqueues both; a bounce to
`carol@example.com` enqueues only the catch-all; no routes, no entries. -/
theorem C3_route_matching_witness :
    execute_ingest '+' [routeCatchAll, routeSpecific] bounceMsgToBob
      = Except.ok [1, 2] ∧
    execute_ingest '+' [routeCatchAll, routeSpecific] bounceMsgToCarol
      = Except.ok [1] ∧
    targetUserDomain '+' bounceMsgToBob
      = ("bob".toList, "example.com".toList) ∧
    execute_ingest '+' [] bounceMsgToBob = Except.ok [] := by
  obtain ⟨hb1, _, hb3, _, _⟩ := C3_route_matching '+'
    [routeCatchAll, routeSpecific] bounceMsgToBob
    (parseDsnLines (linesOf dsnSamplePart.textContents)) rfl
  obtain ⟨hc1, _, _, _, _⟩ := C3_route_matching '+'
    [routeCatchAll, routeSpecific] bounceMsgToCarol
    (parseDsnLines (linesOf dsnSamplePart.textContents)) rfl
  obtain ⟨_, _, _, _, he5⟩ := C3_route_matching '+' [] bounceMsgToBob
    (parseDsnLines (linesOf dsnSamplePart.textContents)) rfl
  refine ⟨hb1.trans (congrArg Except.ok (by decide)),
    hc1.trans (congrArg Except.ok (by decide)), ?_, he5 rfl⟩
  exact hb3 "bob".toList "promo".toList "example.com".toList (by decide)
    (by decide) (by decide) (by decide) (by decide)


/-- Every claimed job is a store row joined to one of the routes and
satisfies the WHERE clause of `find_jobs`. -/
theorem find_jobs_mem {entries : List QueueRow} {routes : List Route}
    {now : Int} {limit : Nat} {j : ClaimedJob}
    (h : j ∈ find_jobs entries routes now limit) :
    j.1 ∈ entries ∧ j.2 ∈ routes ∧ j.1.nextRetryAt ≤ now ∧
    j.1.isExpired = false ∧ j.2.isActive = true := by
  unfold find_jobs at h
  have h1 := List.mem_of_mem_take h
  have h2 := (List.perm_insertionSort retryLe _).mem_iff.mp h1
  obtain ⟨hj, hf⟩ := List.mem_filter.mp h2
  simp only [readyFilter, Bool.and_eq_true, decide_eq_true_eq] at hf
  obtain ⟨e, he, hr⟩ := List.mem_flatMap.mp hj
  obtain ⟨r, hrmem, heq⟩ := List.mem_map.mp hr
  obtain ⟨hrmem', _⟩ := List.mem_filter.mp hrmem
  rw [← heq]
  exact ⟨he, hrmem', (heq ▸ hf.1.1 : _), heq ▸ hf.1.2, heq ▸ hf.2⟩

/-- Claim C5: `find_jobs` returns only entries with `next_retry_at <= now`,
`expired = false` and an active joined route, in non-decreasing
`next_retry_at` order, and returns at most `limit` entries. -/
theorem C5_claim_ready (entries : List QueueRow) (routes : List Route)
    (now : Int) (limit : Nat) :
    (∀ j ∈ find_jobs entries routes now limit,
      j.1 ∈ entries ∧ j.1.nextRetryAt ≤ now ∧ j.1.isExpired = false ∧
      j.2 ∈ routes ∧ j.2.isActive = true) ∧
    List.Pairwise (fun a b : ClaimedJob =>
      a.1.nextRetryAt ≤ b.1.nextRetryAt) (find_jobs entries routes now limit) ∧
    (find_jobs entries routes now limit).length ≤ limit := by
  refine ⟨fun j hj => ?_, ?_, ?_⟩
  · obtain ⟨ha, hb, hc, hd, he⟩ := find_jobs_mem hj
    exact ⟨ha, hc, hd, hb, he⟩
  · show List.Pairwise retryLe _
    exact List.Pairwise.sublist (List.take_sublist _ _)
      (List.sorted_insertionSort retryLe _)
  · exact List.length_take_le _ _

/-- Witness for C5 on the sample store: the expired row is not claimed, the
two ready rows come back oldest-due first, within the limit. -/
theorem C5_claim_ready_witness :
    (find_jobs sampleStore.entries sampleStore.routes 10 5).map
        (fun j => (j.1.id, j.2.id)) = [(11, 2), (10, 1)] ∧
    (find_jobs sampleStore.entries sampleStore.routes 10 5).length ≤ 5 ∧
    rowExpired.isExpired = true := by
  obtain ⟨_, _, h3⟩ :=
    C5_claim_ready sampleStore.entries sampleStore.routes 10 5
  exact ⟨by decide, h3, rfl⟩

/-- The per-job loop of a worker iteration never touches a row whose id
differs from every claimed job's id. -/
theorem workerFold_preserves (success : Nat → Bool)
    (maxRetries maxDelay now : Int) (err : List Char) (e : QueueRow) :
    ∀ (jobs : List ClaimedJob) (acc : Store),
      (∀ j ∈ jobs, j.1.id ≠ e.id) → e ∈ acc.entries →
      e ∈ (jobs.foldl
        (fun acc job =>
          if success job.1.id then delete_job acc job.1.id
          else reschedule_job maxRetries maxDelay now err acc job.1)
        acc).entries := by
  intro jobs
  induction jobs with
  | nil => intro acc _ he; exact he
  | cons j js ih =>
    intro acc hall he
    rw [List.foldl_cons]
    apply ih _ (fun x hx => hall x (List.mem_cons_of_mem j hx))
    have hid : j.1.id ≠ e.id := hall j (List.mem_cons_self j js)
    cases hs : success j.1.id
    · simp only [Bool.false_eq_true, if_false, reschedule_job]
      have : (if e.id = j.1.id then
          rescheduleUpdate maxRetries maxDelay now err j.1.attempts e
        else e) = e := if_neg (fun hx => hid hx.symm)
      exact this ▸ List.mem_map_of_mem _ he
    · simp only [if_true, delete_job]
      have hne' : e.id ≠ j.1.id := fun hx => hid hx.symm
      exact List.mem_filter.mpr ⟨he, by simp [hne']⟩

/-- Claim C8: an entry with `expired = true` is terminal — it is never
returned by a claim, and a full worker iteration (with any delivery
outcomes) neither deletes it nor alters it, so the flag is never cleared. -/
theorem C8_expired_terminal (success : Nat → Bool)
    (maxRetries maxDelay now : Int) (limit : Nat) (err : List Char)
    (st : Store) (e : QueueRow)
    (hnodup : (st.entries.map QueueRow.id).Nodup)
    (he : e ∈ st.entries) (hexp : e.isExpired = true) :
    (∀ j ∈ find_jobs st.entries st.routes now limit, j.1 ≠ e) ∧
    e ∈ (workerIteration success maxRetries maxDelay now limit err st).entries
    := by
  have hne : ∀ j ∈ find_jobs st.entries st.routes now limit, j.1 ≠ e := by
    intro j hj hje
    have hf := (find_jobs_mem hj).2.2.2.1
    rw [hje, hexp] at hf
    exact Bool.true_eq_false.mp hf
  refine ⟨hne, ?_⟩
  have hids : ∀ j ∈ find_jobs st.entries st.routes now limit,
      j.1.id ≠ e.id := by
    intro j hj heq
    exact hne j hj (List.inj_on_of_nodup_map hnodup (find_jobs_mem hj).1 he heq)
  exact workerFold_preserves success maxRetries maxDelay now err e _ st hids he

/-- Witness for C8: the expired sample row survives an all-success worker
iteration untouched and is absent from the claimed batch. -/
theorem C8_expired_terminal_witness :
    rowExpired ∉ (find_jobs sampleStore.entries sampleStore.routes 10 5).map
      Prod.fst ∧
    rowExpired ∈ (workerIteration (fun _ => true) 50 1800 10 5 []
      sampleStore).entries := by
  obtain ⟨h1, h2⟩ := C8_expired_terminal (fun _ => true) 50 1800 10 5 []
    sampleStore rowExpired (by decide) (by decide) rfl
  refine ⟨fun hmem => ?_, h2⟩
  obtain ⟨j, hj, hje⟩ := List.mem_map.mp hmem
  exact h1 j hj hje

end BounceRelay
